import Mathlib

/-!
Shallow embedding of the AI-Operation-Assistant plan-execution engine:
`src/tools/retry_utils.py` (retry policy, together with the tenacity
combinators it configures), `src/agents/executor.py` (dependency
scheduler and step runner), `src/agents/verifier.py` (result
aggregator), and the network-call structure of
`src/tools/wikipedia_tool.py` and `src/tools/weather_tool.py`.
-/

namespace AIOps

/-- JSON-like Python values: tool parameters, payloads and return data. -/
inductive Value where
  | null : Value
  | bool (b : Bool) : Value
  | int (n : Int) : Value
  | str (s : String) : Value
  | list (items : List Value) : Value
  | obj (fields : List (String × Value)) : Value
deriving Repr, Inhabited

mutual

/-- Structural equality of values: Python `==` on the modelled data. -/
def Value.beq : Value → Value → Bool
  | .null, .null => true
  | .bool a, .bool b => a == b
  | .int a, .int b => a == b
  | .str a, .str b => a == b
  | .list as, .list bs => beqValues as bs
  | .obj as, .obj bs => beqFields as bs
  | _, _ => false

def beqValues : List Value → List Value → Bool
  | [], [] => true
  | a :: as, b :: bs => Value.beq a b && beqValues as bs
  | _, _ => false

def beqFields : List (String × Value) → List (String × Value) → Bool
  | [], [] => true
  | (k1, v1) :: as, (k2, v2) :: bs => k1 == k2 && Value.beq v1 v2 && beqFields as bs
  | _, _ => false

end

mutual

theorem Value.eq_of_beq : ∀ {a b : Value}, Value.beq a b = true → a = b
  | .null, .null, _ => rfl
  | .bool a, .bool b, h => by simpa [Value.beq] using h
  | .int a, .int b, h => by simpa [Value.beq] using h
  | .str a, .str b, h => by simpa [Value.beq] using h
  | .list as, .list bs, h => by
      simp only [Value.beq] at h
      exact congrArg Value.list (eq_of_beqValues h)
  | .obj as, .obj bs, h => by
      simp only [Value.beq] at h
      exact congrArg Value.obj (eq_of_beqFields h)

theorem eq_of_beqValues : ∀ {as bs : List Value}, beqValues as bs = true → as = bs
  | [], [], _ => rfl
  | a :: as, b :: bs, h => by
      simp only [beqValues, Bool.and_eq_true] at h
      rw [Value.eq_of_beq h.1, eq_of_beqValues h.2]

theorem eq_of_beqFields : ∀ {as bs : List (String × Value)}, beqFields as bs = true → as = bs
  | [], [], _ => rfl
  | (k1, v1) :: as, (k2, v2) :: bs, h => by
      simp only [beqFields, Bool.and_eq_true, beq_iff_eq] at h
      rw [h.1.1, Value.eq_of_beq h.1.2, eq_of_beqFields h.2]

end

mutual

theorem Value.beq_refl : ∀ a : Value, Value.beq a a = true
  | .null => rfl
  | .bool a => by simp [Value.beq]
  | .int a => by simp [Value.beq]
  | .str a => by simp [Value.beq]
  | .list as => by simp only [Value.beq]; exact beqValues_refl as
  | .obj as => by simp only [Value.beq]; exact beqFields_refl as

theorem beqValues_refl : ∀ as : List Value, beqValues as as = true
  | [] => rfl
  | a :: as => by
      simp only [beqValues, Bool.and_eq_true]
      exact ⟨Value.beq_refl a, beqValues_refl as⟩

theorem beqFields_refl : ∀ as : List (String × Value), beqFields as as = true
  | [] => rfl
  | (k, v) :: as => by
      simp [beqFields, Value.beq_refl v, beqFields_refl as]

end

instance : DecidableEq Value := fun a b =>
  decidable_of_iff (Value.beq a b = true)
    ⟨Value.eq_of_beq, fun h => h ▸ Value.beq_refl a⟩

/-- Python truthiness of a value (`if x:`). -/
def Value.truthy : Value → Bool
  | .null => false
  | .bool b => b
  | .int n => decide (n ≠ 0)
  | .str s => !s.isEmpty
  | .list items => !items.isEmpty
  | .obj fields => !fields.isEmpty

/-- Python dicts, modelled as insertion-ordered association lists. -/
abbrev Dict := List (String × Value)

/-- `d.get(k)` with no default: `some v` when the key is present. -/
def dictGet (d : Dict) (k : String) : Option Value :=
  (d.find? (fun p => p.1 == k)).map Prod.snd

/-- `d.get(k)` with Python's `None` default rendered as `Value.null`. -/
def dictGetD (d : Dict) (k : String) : Value := (dictGet d k).getD .null

/-- `k in d`. -/
def dictHasKey (d : Dict) (k : String) : Bool := (dictGet d k).isSome

/-- `d[k] = v`: update an existing binding in place (keeping its position,
as Python dicts do) or append a new one. -/
def dictSet (d : Dict) (k : String) (v : Value) : Dict :=
  if dictHasKey d k then d.map (fun p => if p.1 == k then (k, v) else p)
  else d ++ [(k, v)]

/-- The httpx exceptions `src/tools/retry_utils.py` distinguishes:
connectivity faults, timeouts, HTTP status errors (carrying the response
status code) and every other exception. `msg` is `str(e)`. -/
inductive ApiException where
  | connectError (msg : String)
  | timeoutException (msg : String)
  | httpStatusError (status : Nat) (msg : String)
  | otherError (msg : String)
deriving DecidableEq, Repr

/-- `str(e)` of a modelled exception. -/
def ApiException.message : ApiException → String
  | .connectError m => m
  | .timeoutException m => m
  | .httpStatusError _ m => m
  | .otherError m => m

/-- `should_retry_http_error` (src/tools/retry_utils.py lines 20-43):
retry network faults, 5xx server errors and 429 rate limits; nothing
else. -/
def should_retry_http_error : ApiException → Bool
  | .connectError _ => true
  | .timeoutException _ => true
  | .httpStatusError status _ => if status ≥ 500 || status == 429 then true else false
  | .otherError _ => false

/-- The retry condition `retry_api_call` hands to tenacity
(src/tools/retry_utils.py lines 73-76): exception type ConnectError, or
exception type TimeoutException, or `should_retry_http_error`. -/
def retryCondition (e : ApiException) : Bool :=
  (match e with | .connectError _ => true | _ => false) ||
  (match e with | .timeoutException _ => true | _ => false) ||
  should_retry_http_error e

/-- tenacity `wait_exponential.__call__` with the configured
`exp_base = 2`: `max(max(0, min), min(multiplier * 2^(n-1), max))`,
where `n` is the number of the attempt that just failed. Every
parameter the repository passes is an integer, so the arithmetic is
exact over `Nat`. -/
def wait_exponential (multiplier minWait maxWait attemptNumber : Nat) : Nat :=
  max (max 0 minWait) (min (multiplier * 2 ^ (attemptNumber - 1)) maxWait)

/-- One run of a wrapped operation: the final outcome, the sleeps induced
before each retry, and the number of attempts consumed. -/
structure RetryTrace (α : Type) where
  result : Except ApiException α
  sleeps : List Nat
  attempts : Nat
deriving Repr

/-- The loop tenacity runs for `retry_api_call`'s configuration
(`stop_after_attempt`, `wait_exponential`, the retry condition above,
`reraise=True`): call the operation; a success returns at once; a failure
the condition rejects is reraised immediately; a retryable failure with no
attempt left (`remaining = 0`, i.e. `attempt_number >= max_attempts`) is
reraised unchanged; otherwise sleep `wait_exponential ... attemptNumber`
and try again. The fallible operation is modelled per attempt number:
`op n` is what the n-th call does. -/
def retryLoopAux (multiplier minWait maxWait : Nat)
    (op : Nat → Except ApiException α) (attemptNumber remaining : Nat) :
    RetryTrace α :=
  match op attemptNumber with
  | .ok v => ⟨.ok v, [], 1⟩
  | .error e =>
    if retryCondition e then
      match remaining with
      | 0 => ⟨.error e, [], 1⟩
      | r + 1 =>
        let w := wait_exponential multiplier minWait maxWait attemptNumber
        let t := retryLoopAux multiplier minWait maxWait op (attemptNumber + 1) r
        ⟨t.result, w :: t.sleeps, t.attempts + 1⟩
    else ⟨.error e, [], 1⟩
termination_by structural remaining

/-- `retry_api_call(max_attempts, initial_wait, max_wait, multiplier)`
applied to one operation (src/tools/retry_utils.py lines 46-83): the
tenacity loop starting at attempt number 1 with `max_attempts - 1`
retries left. -/
def retry_api_call (max_attempts initial_wait max_wait multiplier : Nat)
    (op : Nat → Except ApiException α) : RetryTrace α :=
  retryLoopAux multiplier initial_wait max_wait op 1 (max_attempts - 1)

/-- C3: the retry policy retries an exception iff it is a connectivity or
timeout fault, or an HTTP status error with a 5xx or 429 status; and any
other fault propagates unchanged the moment it occurs, with no further
sleep or attempt consumed. -/
theorem retry_classification_terminal_immediate :
    (∀ e : ApiException, retryCondition e = true ↔
      ((∃ m, e = .connectError m) ∨ (∃ m, e = .timeoutException m) ∨
       (∃ s m, e = .httpStatusError s m ∧ (500 ≤ s ∨ s = 429)))) ∧
    (∀ (α : Type) (op : Nat → Except ApiException α)
       (mult minW maxW attempt remaining : Nat) (e : ApiException),
       retryCondition e = false → op attempt = .error e →
       retryLoopAux mult minW maxW op attempt remaining =
         ⟨.error e, [], 1⟩) := by
  constructor
  · intro e
    cases e with
    | connectError m =>
        constructor
        · intro _; exact Or.inl ⟨m, rfl⟩
        · intro _; rfl
    | timeoutException m =>
        constructor
        · intro _; exact Or.inr (Or.inl ⟨m, rfl⟩)
        · intro _; rfl
    | httpStatusError s m =>
        have hcond : retryCondition (.httpStatusError s m) =
            (decide (500 ≤ s) || s == 429) := by
          by_cases h5 : 500 ≤ s <;> by_cases h4 : s = 429 <;>
            simp [retryCondition, should_retry_http_error, h5, h4, Nat.le_of_lt]
        rw [hcond]
        simp only [Bool.or_eq_true, decide_eq_true_eq, beq_iff_eq]
        constructor
        · intro h
          exact Or.inr (Or.inr ⟨s, m, rfl, h⟩)
        · rintro (⟨m2, h⟩ | ⟨m2, h⟩ | ⟨s2, m2, heq, hs⟩)
          · exact absurd h (by simp)
          · exact absurd h (by simp)
          · cases heq; exact hs
    | otherError m =>
        constructor
        · intro h
          exact absurd h (by simp [retryCondition, should_retry_http_error])
        · rintro (⟨m2, h⟩ | ⟨m2, h⟩ | ⟨s2, m2, h, _⟩) <;> exact absurd h (by simp)
  · intro α op mult minW maxW attempt remaining e hcond hop
    unfold retryLoopAux
    rw [hop]
    simp [hcond]

/-- Witness for C3: a 404 status error is not retried and propagates at
once, with a single attempt and no sleep. -/
theorem retry_classification_terminal_immediate_witness :
    retryLoopAux 2 1 10
      (fun _ => (Except.error (.httpStatusError 404 "Not Found") : Except ApiException Value)) 1 2 =
      ⟨Except.error (.httpStatusError 404 "Not Found"), [], 1⟩ :=
  retry_classification_terminal_immediate.2 Value
    (fun _ => Except.error (.httpStatusError 404 "Not Found")) 2 1 10 1 2
    (.httpStatusError 404 "Not Found") (by decide) rfl

/-- Concrete operation for C4: a retryable connectivity fault on attempts
1 and 2, success on attempt 3. -/
def transientTwiceOp : Nat → Except ApiException Value :=
  fun n => if n < 3 then .error (.connectError "connection reset") else .ok (.str "payload")

/-- C4 evaluated at the claim's own scenario, with the code's default
parameters (max_attempts 3, initial_wait 1, max_wait 10, multiplier 2):
the operation succeeds after exactly 3 attempts and exactly 2 sleeps, and
a fully failing retryable operation reraises the original exception after
3 attempts — but the sleeps are 2s then 4s, not the 1s then 2s that the
claim (and the code's own comment, retry_utils.py line 66) states:
tenacity computes `max(min_wait, min(multiplier * 2^(attempt-1), max_wait))`,
so the `initial_wait = 1` never shows up as a delay. -/
theorem retry_defaults_sleep_two_then_four :
    retry_api_call 3 1 10 2 transientTwiceOp =
      ⟨.ok (.str "payload"), [2, 4], 3⟩ ∧
    retry_api_call 3 1 10 2
        (fun _ => (Except.error (.connectError "down") : Except ApiException Value)) =
      ⟨Except.error (.connectError "down"), [2, 4], 3⟩ ∧
    wait_exponential 2 1 10 1 = 2 ∧ wait_exponential 2 1 10 2 = 4 ∧
    ¬ (wait_exponential 2 1 10 1 = 1 ∧ wait_exponential 2 1 10 2 = 2) :=
  ⟨rfl, rfl, rfl, rfl, by decide⟩

/-! ## Executor: data model (src/models/schemas.py) -/

/-- `PlanStep` (schemas.py lines 27-33). -/
structure PlanStep where
  step_number : Int
  action : String
  tool : String
  params : Dict
  reasoning : String
deriving Repr, DecidableEq, Inhabited

/-- `ToolResult` (schemas.py lines 43-48): `data` is `Optional[Dict]`,
`error` is `Optional[str]`. -/
structure ToolResult where
  tool : String
  success : Bool
  data : Option Dict
  error : Option String
deriving Repr, DecidableEq, Inhabited

/-- `ExecutionPlan` (schemas.py lines 36-40). -/
structure ExecutionPlan where
  task : String
  steps : List PlanStep
  estimated_tools : List String
deriving Repr

/-- `ExecutionResult` (schemas.py lines 51-55). The wall-clock
`execution_time` field is not modelled. -/
structure ExecutionResult where
  plan : ExecutionPlan
  results : List ToolResult
deriving Repr

/-! ## Step runner (`ExecutorAgent._execute_step`) -/

/-- Generic lookup in an insertion-ordered association list (Python
attribute/dict lookup). -/
def assocGet {β : Type} (l : List (String × β)) (k : String) : Option β :=
  (l.find? (fun p => p.1 == k)).map Prod.snd

/-- One action a tool exposes: the parameter names its Python signature
accepts (`inspect.signature`, used by the executor's parameter filter)
and what a call does — `.error msg` models the call raising an exception
with `str(e) = msg`, `.ok v` models it returning `v`. -/
structure ToolAction where
  acceptedParams : List String
  run : Dict → Except String Value

/-- The executor's tool registry (executor.py lines 28-37, with
`getattr` method lookup): tool name → action name → action. -/
abbrev Registry := List (String × List (String × ToolAction))

/-- Stands for `str(e)` of the pydantic ValidationError raised when
`ToolResult` is constructed with a non-dict `data` or a non-string
`error`; that exception is raised inside the `try` block and so is
caught and converted like any other (the exact text is irrelevant to
every property below). -/
def validationErrorText : String := "validation error for ToolResult"

/-- `ExecutorAgent._execute_step` (executor.py lines 188-291): resolve
the tool, resolve the action, drop parameters the signature does not
accept, invoke, and normalize the outcome. Every raised exception is
converted into a failed outcome whose error is
`"Execution error: " ++ str(e)`. A returned dict with a `success` key
is propagated; on failure the payload's `error` value is used,
defaulting to "Unknown error" when the key is absent — a present key
holding `None` passes pydantic's `Optional[str]` and leaves the
outcome's error unset. A returned dict without a `success` key - and a
returned `None` - count as success (`None` leaves `data` unset). -/
def execute_step (tools : Registry) (step : PlanStep) : ToolResult :=
  match assocGet tools step.tool with
  | none =>
      { tool := step.tool, success := false, data := none,
        error := some ("Tool '" ++ step.tool ++ "' not found") }
  | some tool =>
    match assocGet tool step.action with
    | none =>
        { tool := step.tool, success := false, data := none,
          error := some ("Action '" ++ step.action ++ "' not found in tool '"
            ++ step.tool ++ "'") }
    | some method =>
      let filtered_params := step.params.filter (fun p => method.acceptedParams.contains p.1)
      match method.run filtered_params with
      | .error cause =>
          { tool := step.tool, success := false, data := none,
            error := some ("Execution error: " ++ cause) }
      | .ok result_data =>
        match result_data with
        | .obj d =>
          match dictGet d "success" with
          | some sv =>
            if sv.truthy then
              { tool := step.tool, success := true, data := some d, error := none }
            else
              match (dictGet d "error").getD (.str "Unknown error") with
              | .str error_msg =>
                  { tool := step.tool, success := false, data := none,
                    error := some error_msg }
              | .null =>
                  { tool := step.tool, success := false, data := none,
                    error := none }
              | _ =>
                  { tool := step.tool, success := false, data := none,
                    error := some ("Execution error: " ++ validationErrorText) }
          | none =>
              { tool := step.tool, success := true, data := some d, error := none }
        | .null =>
            { tool := step.tool, success := true, data := none, error := none }
        | _ =>
            { tool := step.tool, success := false, data := none,
              error := some ("Execution error: " ++ validationErrorText) }

/-! ## Dependency scheduler (`ExecutorAgent.execute_plan`) -/

/-- The dependency test of executor.py lines 72-77: step `i` depends on
its predecessor iff it is `wikipedia.get_summary`, `i > 0`, and step
`i-1` is `wikipedia.search`. -/
def depends_on_previous (steps : List PlanStep) (i : Nat) : Bool :=
  match steps[i]? with
  | none => false
  | some step =>
    step.tool == "wikipedia" && step.action == "get_summary" && decide (0 < i) &&
      (match steps[i-1]? with
       | some prev => prev.tool == "wikipedia" && prev.action == "search"
       | none => false)

/-- The batch-accumulation inner loop (executor.py lines 69-84), started
one past the batch's first step: scan forward while steps are not
declared dependent, and return the index just past the batch. The first
candidate is always admitted (the dependent check only breaks when the
batch is already non-empty). `fuel` is the loop bound; any value
at least `steps.length - j` gives the loop's exact behaviour. -/
def batchEndAux (steps : List PlanStep) : Nat → Nat → Nat
  | j, 0 => j
  | j, fuel + 1 =>
    if j < steps.length then
      if depends_on_previous steps j then j else batchEndAux steps (j + 1) fuel
    else j

/-- Index just past the batch that starts at step `i`. -/
def batchEnd (steps : List PlanStep) (i : Nat) : Nat :=
  batchEndAux steps (i + 1) (steps.length - (i + 1))

/-- The smart parameter injection for a dependent step (executor.py lines
145-158): when the step is `wikipedia.get_summary` and the last outcome
is a successful wikipedia call with a truthy payload, and the step's
`title` parameter is absent or equal to the payload's `query`, overwrite
`title` with the first search result's title. Python would raise a
KeyError if the first item lacked a "title" key (and a TypeError on a
truthy non-list "results" value); the wikipedia search action always
builds items with that key (wikipedia_tool.py lines 51-56), and the
model leaves the step unchanged in those unreachable cases. -/
def smart_inject (results : List ToolResult) (step : PlanStep) : PlanStep :=
  let cond := step.tool == "wikipedia" && step.action == "get_summary" &&
    decide (0 < results.length) &&
    (match results.getLast? with
     | some prev => prev.tool == "wikipedia" && prev.success &&
         (match prev.data with | some d => Value.truthy (.obj d) | none => false)
     | none => false)
  if cond then
    match results.getLast? with
    | some prev =>
      match prev.data with
      | some prev_result =>
        if !(dictHasKey step.params "title") ||
           dictGetD step.params "title" == dictGetD prev_result "query" then
          match dictGet prev_result "results" with
          | some rv =>
            if rv.truthy then
              match rv with
              | .list (first :: _) =>
                match first with
                | .obj item =>
                  match dictGet item "title" with
                  | some extracted_title =>
                      { step with params := dictSet step.params "title" extracted_title }
                  | none => step
                | _ => step
              | _ => step
            else step
          | none => step
        else step
      | none => step
    | none => step
  else step

/-- The key order of the scheduler's re-sort (executor.py line 129:
`batch_results.sort(key=lambda x: x[0])`): compare (index, outcome)
pairs by original index. -/
def idxLe (a b : Nat × ToolResult) : Prop := a.1 ≤ b.1

instance : DecidableRel idxLe := fun a b => Nat.decLe a.1 b.1

instance : IsTotal (Nat × ToolResult) idxLe := ⟨fun a b => Nat.le_total a.1 b.1⟩

instance : IsTrans (Nat × ToolResult) idxLe := ⟨fun _ _ _ => Nat.le_trans⟩

/-- The scheduler loop of `ExecutorAgent.execute_plan` (executor.py lines
63-171): accumulate a batch of consecutive independent steps, run its
members concurrently (`asyncio.gather`), re-sort the gathered
(original index, outcome) pairs by index (line 129) and append; then, if
the loop broke at a dependent step, apply the smart injection against
the accumulated results and run that step alone. `exec` is the step
runner; `reorder` models the order in which the batch members' outcomes
are observed (any permutation of concurrent completions). `fuel` bounds
the outer loop; every iteration consumes at least one step, so
`steps.length` suffices. -/
def executeFrom (exec : PlanStep → ToolResult)
    (reorder : List (Nat × ToolResult) → List (Nat × ToolResult))
    (steps : List PlanStep) : Nat → Nat → List ToolResult → List ToolResult
  | 0, _, acc => acc
  | fuel + 1, i, acc =>
    if i < steps.length then
      let e := batchEnd steps i
      let parallel_batch := List.enumFrom i ((steps.drop i).take (e - i))
      let gathered := reorder (parallel_batch.map (fun p => (p.1, exec p.2)))
      let batch_results := List.insertionSort idxLe gathered
      let acc2 := acc ++ batch_results.map Prod.snd
      if e < steps.length then
        match steps[e]? with
        | some step =>
            let step2 := smart_inject acc2 step
            executeFrom exec reorder steps fuel (e + 1) (acc2 ++ [exec step2])
        | none => acc2
      else acc2
    else acc

/-- `ExecutorAgent.execute_plan` (executor.py lines 39-186). -/
def execute_plan (exec : PlanStep → ToolResult)
    (reorder : List (Nat × ToolResult) → List (Nat × ToolResult))
    (plan : ExecutionPlan) : ExecutionResult :=
  { plan := plan,
    results := executeFrom exec reorder plan.steps plan.steps.length 0 [] }

/-! ## Scheduler lemmas -/

theorem execute_step_tool (tools : Registry) (step : PlanStep) :
    (execute_step tools step).tool = step.tool := by
  unfold execute_step
  repeat' (first | split | dsimp only)

theorem smart_inject_tool (results : List ToolResult) (step : PlanStep) :
    (smart_inject results step).tool = step.tool := by
  unfold smart_inject
  repeat' (first | split | dsimp only)

theorem batchEndAux_ge (steps : List PlanStep) :
    ∀ (fuel j : Nat), j ≤ batchEndAux steps j fuel
  | 0, j => Nat.le_refl j
  | fuel + 1, j => by
      unfold batchEndAux
      split
      · split
        · exact Nat.le_refl j
        · exact Nat.le_trans (Nat.le_succ j) (batchEndAux_ge steps fuel (j + 1))
      · exact Nat.le_refl j

theorem batchEndAux_le (steps : List PlanStep) :
    ∀ (fuel j : Nat), j ≤ steps.length → batchEndAux steps j fuel ≤ steps.length
  | 0, j, h => h
  | fuel + 1, j, h => by
      unfold batchEndAux
      split
      · split
        · assumption
        · exact batchEndAux_le steps fuel (j + 1) (by omega)
      · exact h

theorem batchEnd_gt (steps : List PlanStep) (i : Nat) : i < batchEnd steps i :=
  Nat.lt_of_lt_of_le (Nat.lt_succ_self i)
    (batchEndAux_ge steps (steps.length - (i + 1)) (i + 1))

theorem batchEnd_le (steps : List PlanStep) (i : Nat) (h : i < steps.length) :
    batchEnd steps i ≤ steps.length :=
  batchEndAux_le steps (steps.length - (i + 1)) (i + 1) h

/-- A sorted permutation of a list with strictly increasing indices is
that list: re-sorting by original index undoes any completion order. -/
theorem sorted_perm_of_strict_increasing_eq :
    ∀ {l l' : List (Nat × ToolResult)}, List.Perm l' l →
      List.Pairwise (fun a b => a.1 < b.1) l →
      List.Sorted idxLe l' → l' = l := by
  intro l
  induction l with
  | nil => intro l' hp _ _; exact hp.eq_nil
  | cons a t ih =>
    intro l' hp hinc hs
    match l' with
    | [] => exact absurd hp.symm.eq_nil (by simp)
    | b :: t' =>
      have hmem_b : b ∈ a :: t := hp.mem_iff.mp (List.mem_cons_self b t')
      have hmem_a : a ∈ b :: t' := hp.symm.mem_iff.mp (List.mem_cons_self a t)
      have hba : b = a := by
        by_contra hne
        have hbt : b ∈ t := by
          rcases List.mem_cons.mp hmem_b with h | h
          · exact absurd h hne
          · exact h
        have hat : a ∈ t' := by
          rcases List.mem_cons.mp hmem_a with h | h
          · exact absurd h.symm hne
          · exact h
        have h1 : a.1 < b.1 := (List.pairwise_cons.mp hinc).1 b hbt
        have h2 : b.1 ≤ a.1 := (List.sorted_cons.mp hs).1 a hat
        omega
      subst hba
      have ht : t' = t :=
        ih hp.cons_inv (List.pairwise_cons.mp hinc).2 (List.sorted_cons.mp hs).2
      rw [ht]

/-- The gathered (index, outcome) pairs have strictly increasing
original indices. -/
theorem batch_pairs_increasing (exec : PlanStep → ToolResult) (i : Nat)
    (l : List PlanStep) :
    List.Pairwise (fun a b : Nat × ToolResult => a.1 < b.1)
      ((List.enumFrom i l).map (fun p => (p.1, exec p.2))) := by
  have hfst : (((List.enumFrom i l).map (fun p => (p.1, exec p.2))).map Prod.fst) =
      List.range' i l.length := by
    rw [List.map_map]
    have hcomp : (Prod.fst ∘ fun p : Nat × PlanStep => (p.1, exec p.2)) = Prod.fst := rfl
    rw [hcomp, List.enumFrom_map_fst]
  have hp := List.pairwise_lt_range' i l.length
  rw [← hfst] at hp
  exact List.pairwise_map.mp hp

theorem batch_pairs_snd (exec : PlanStep → ToolResult) (i : Nat) (l : List PlanStep) :
    (((List.enumFrom i l).map (fun p => (p.1, exec p.2))).map Prod.snd) = l.map exec := by
  rw [List.map_map]
  have hcomp : (Prod.snd ∘ fun p : Nat × PlanStep => (p.1, exec p.2)) =
      exec ∘ Prod.snd := rfl
  rw [hcomp, ← List.map_map, List.enumFrom_map_snd]

/-- Re-sorting the reordered batch restores the original index order. -/
theorem sort_restores (reorder : List (Nat × ToolResult) → List (Nat × ToolResult))
    (hperm : ∀ l, List.Perm (reorder l) l)
    (exec : PlanStep → ToolResult) (i : Nat) (l : List PlanStep) :
    List.insertionSort idxLe (reorder ((List.enumFrom i l).map (fun p => (p.1, exec p.2)))) =
      (List.enumFrom i l).map (fun p => (p.1, exec p.2)) :=
  sorted_perm_of_strict_increasing_eq
    ((List.perm_insertionSort idxLe _).trans (hperm _))
    (batch_pairs_increasing exec i l)
    (List.sorted_insertionSort idxLe _)

/-- Shape of the scheduler loop: for sufficient fuel the loop appends,
after the accumulator, exactly one outcome per remaining step, with the
outcome tools aligned to the step tools in plan order. -/
theorem executeFrom_shape (exec : PlanStep → ToolResult)
    (reorder : List (Nat × ToolResult) → List (Nat × ToolResult))
    (steps : List PlanStep)
    (hperm : ∀ l, List.Perm (reorder l) l)
    (htool : ∀ s, (exec s).tool = s.tool) :
    ∀ (fuel i : Nat) (acc : List ToolResult), steps.length - i ≤ fuel →
      ∃ tail : List ToolResult,
        executeFrom exec reorder steps fuel i acc = acc ++ tail ∧
        tail.map ToolResult.tool = (steps.drop i).map PlanStep.tool
  | 0, i, acc, hfuel => by
      refine ⟨[], by simp [executeFrom], ?_⟩
      have : steps.drop i = [] := List.drop_eq_nil_of_le (by omega)
      simp [this]
  | fuel + 1, i, acc, hfuel => by
      by_cases hi : i < steps.length
      case neg =>
        refine ⟨[], by simp [executeFrom, hi], ?_⟩
        have : steps.drop i = [] := List.drop_eq_nil_of_le (by omega)
        simp [this]
      case pos =>
        have hie : i < batchEnd steps i := batchEnd_gt steps i
        have hel : batchEnd steps i ≤ steps.length := batchEnd_le steps i hi
        set e := batchEnd steps i with he
        set slice := (steps.drop i).take (e - i) with hslice
        have hsliceMap :
            (List.insertionSort idxLe
              (reorder ((List.enumFrom i slice).map (fun p => (p.1, exec p.2))))).map Prod.snd =
            slice.map exec := by
          rw [sort_restores reorder hperm exec i slice, batch_pairs_snd]
        have hsliceTool : (slice.map exec).map ToolResult.tool = slice.map PlanStep.tool := by
          rw [List.map_map]
          have : (ToolResult.tool ∘ exec) = PlanStep.tool := funext htool
          rw [this]
        have hdd : List.drop (e - i) (List.drop i steps) = List.drop e steps := by
          rw [List.drop_drop]
          congr 1
          omega
        have hdropsplit : steps.drop i = slice ++ steps.drop e := by
          conv_lhs => rw [← List.take_append_drop (e - i) (steps.drop i)]
          rw [← hslice, hdd]
        by_cases hee : e < steps.length
        case pos =>
          have hstep : steps[e]? = some steps[e] := List.getElem?_eq_getElem hee
          obtain ⟨tail', heq', halign'⟩ :=
            executeFrom_shape exec reorder steps hperm htool fuel (e + 1)
              ((acc ++ (List.insertionSort idxLe
                  (reorder ((List.enumFrom i slice).map (fun p => (p.1, exec p.2))))).map Prod.snd)
                ++ [exec (smart_inject
                    (acc ++ (List.insertionSort idxLe
                      (reorder ((List.enumFrom i slice).map (fun p => (p.1, exec p.2))))).map Prod.snd)
                    steps[e])])
              (by omega)
          refine ⟨slice.map exec ++
              [exec (smart_inject
                (acc ++ (List.insertionSort idxLe
                  (reorder ((List.enumFrom i slice).map (fun p => (p.1, exec p.2))))).map Prod.snd)
                steps[e])] ++ tail', ?_, ?_⟩
          · show executeFrom exec reorder steps (fuel + 1) i acc = _
            unfold executeFrom
            simp only [hi, if_true, ← he, ← hslice, hee, if_true, hstep]
            rw [heq', hsliceMap]
            simp [List.append_assoc]
          · have hdrope : steps.drop e = steps[e] :: steps.drop (e + 1) :=
              List.drop_eq_getElem_cons hee
            rw [List.map_append, List.map_append, hsliceTool, halign', hdropsplit, hdrope]
            simp only [List.map_append, List.map_cons, List.map_nil, List.append_assoc,
              List.cons_append, List.nil_append]
            congr 2
            rw [htool, smart_inject_tool]
        case neg =>
          have heeq : e = steps.length := by omega
          refine ⟨slice.map exec, ?_, ?_⟩
          · show executeFrom exec reorder steps (fuel + 1) i acc = _
            unfold executeFrom
            simp only [hi, if_true, ← he, ← hslice, hee, if_false]
            rw [hsliceMap]
          · have hdrope : steps.drop e = [] := List.drop_eq_nil_of_le (by omega)
            rw [hsliceTool, hdropsplit, hdrope, List.append_nil]

/-- C1: for every plan, the executor produces exactly one outcome per
plan step, and the i-th outcome's tool equals the i-th step's tool,
regardless of the order in which concurrent batch members complete
(`reorder` ranges over all permutations of completion order): the batch
results are re-sorted by original index before being appended. -/
theorem execute_plan_one_outcome_per_step (exec : PlanStep → ToolResult)
    (reorder : List (Nat × ToolResult) → List (Nat × ToolResult))
    (plan : ExecutionPlan)
    (hperm : ∀ l, List.Perm (reorder l) l)
    (htool : ∀ s, (exec s).tool = s.tool) :
    (execute_plan exec reorder plan).results.length = plan.steps.length ∧
    ∀ i : Nat, ((execute_plan exec reorder plan).results[i]?).map ToolResult.tool =
      (plan.steps[i]?).map PlanStep.tool := by
  obtain ⟨tail, heq, halign⟩ :=
    executeFrom_shape exec reorder plan.steps hperm htool plan.steps.length 0 [] (by omega)
  have hres : (execute_plan exec reorder plan).results = tail := by
    simpa [execute_plan] using heq
  have hlen : tail.length = plan.steps.length := by
    have h1 := congrArg List.length halign
    simpa using h1
  constructor
  · rw [hres, hlen]
  · intro i
    rw [hres]
    have h1 : (tail.map ToolResult.tool)[i]? = (plan.steps.map PlanStep.tool)[i]? := by
      rw [halign]
      simp
    rw [List.getElem?_map, List.getElem?_map] at h1
    exact h1

/-! ## Concrete environment for closed evaluations -/

/-- A wikipedia search payload shaped exactly like the dict
`WikipediaTool.search` returns (wikipedia_tool.py lines 58-62). -/
def sampleSearchPayload : Dict :=
  [("success", .bool true), ("query", .str "Nepal"),
   ("results", .list
     [.obj [("title", .str "Nepal (country)"),
            ("description", .str "Country in South Asia"),
            ("url", .str "https://en.wikipedia.org/wiki/Nepal")]])]

/-- A fixed weather success payload for the demo registry. -/
def demoWeatherPayload : Dict := [("success", .bool true), ("city", .str "Paris")]

/-- A weather action returning a fixed success payload. -/
def demoWeatherAction : ToolAction :=
  { acceptedParams := ["city", "units"],
    run := fun _ => .ok (.obj demoWeatherPayload) }

/-- A crypto action that always raises with cause "boom". -/
def demoCryptoAction : ToolAction :=
  { acceptedParams := ["coin_id", "vs_currency"],
    run := fun _ => .error "boom" }

/-- A small concrete registry: one weather action returning a fixed
success payload, one action that always raises. -/
def demoRegistry : Registry :=
  [("weather", [("get_current_weather", demoWeatherAction)]),
   ("crypto", [("get_price", demoCryptoAction)])]

/-- Witness for C1: a three-step plan under a genuinely scrambling
completion order (`List.reverse`) still yields one outcome per step. -/
theorem execute_plan_one_outcome_per_step_witness :
    (execute_plan (execute_step demoRegistry) List.reverse
      ⟨"demo",
       [⟨1, "get_current_weather", "weather", [("city", .str "Paris")], "w"⟩,
        ⟨2, "get_price", "crypto", [("coin_id", .str "bitcoin")], "c"⟩,
        ⟨3, "lookup", "doesnotexist", [], "x"⟩], []⟩).results.length = 3 :=
  (execute_plan_one_outcome_per_step (execute_step demoRegistry) List.reverse
    ⟨"demo",
     [⟨1, "get_current_weather", "weather", [("city", .str "Paris")], "w"⟩,
      ⟨2, "get_price", "crypto", [("coin_id", .str "bitcoin")], "c"⟩,
      ⟨3, "lookup", "doesnotexist", [], "x"⟩], []⟩
    (fun l => l.reverse_perm) (execute_step_tool demoRegistry)).1

/-- Shape of a two-step `wikipedia.search` then `wikipedia.get_summary`
plan: the search runs as a batch of one, then the dependent step is
always executed, after the smart injection against the accumulated
results. Shared helper for the dependent-step claims. -/
theorem twoStep_plan_shape (exec : PlanStep → ToolResult)
    (reorder : List (Nat × ToolResult) → List (Nat × ToolResult))
    (hperm : ∀ l, List.Perm (reorder l) l)
    (n0 n1 : Int) (p0 p1 : Dict) (r0 r1 task : String) (est : List String) :
    (execute_plan exec reorder
      ⟨task, [⟨n0, "search", "wikipedia", p0, r0⟩,
              ⟨n1, "get_summary", "wikipedia", p1, r1⟩], est⟩).results =
      [exec ⟨n0, "search", "wikipedia", p0, r0⟩,
       exec (smart_inject [exec ⟨n0, "search", "wikipedia", p0, r0⟩]
         ⟨n1, "get_summary", "wikipedia", p1, r1⟩)] := by
  have hre : reorder [(0, exec ⟨n0, "search", "wikipedia", p0, r0⟩)] =
      [(0, exec ⟨n0, "search", "wikipedia", p0, r0⟩)] :=
    List.perm_singleton.mp (hperm _)
  simp [execute_plan, executeFrom, batchEnd, batchEndAux, depends_on_previous, hre,
    List.insertionSort]

/-- C2: for a declared-dependent wikipedia `get_summary` step whose
predecessor search payload carries a first result with a title, (a) the
injection overwrites the step's `title` parameter with that title
exactly when the predecessor outcome is a successful wikipedia call with
a truthy payload and `title` is absent or equal to the payload's
`query`; (b) a failed predecessor leaves the step untouched; (c) a
present `title` different from the query is never overridden; (d) the
dependent step of a search-then-summary plan is always executed — with
exactly the planner-supplied parameters when no injection applies. -/
theorem dependent_injection_spec :
    (∀ (results : List ToolResult) (prev : ToolResult) (prev_result : Dict)
       (step : PlanStep) (first_item : Dict) (rest : List Value) (t : Value),
       results.getLast? = some prev →
       prev.data = some prev_result →
       dictGet prev_result "results" = some (.list (.obj first_item :: rest)) →
       dictGet first_item "title" = some t →
       step.tool = "wikipedia" → step.action = "get_summary" →
       smart_inject results step =
         (if prev.tool == "wikipedia" && prev.success &&
             Value.truthy (.obj prev_result) &&
             (!(dictHasKey step.params "title") ||
              dictGetD step.params "title" == dictGetD prev_result "query")
          then { step with params := dictSet step.params "title" t }
          else step)) ∧
    (∀ (results : List ToolResult) (prev : ToolResult) (step : PlanStep),
       results.getLast? = some prev → prev.success = false →
       smart_inject results step = step) ∧
    (∀ (results : List ToolResult) (prev : ToolResult) (prev_result : Dict)
       (step : PlanStep),
       results.getLast? = some prev → prev.data = some prev_result →
       dictHasKey step.params "title" = true →
       dictGetD step.params "title" ≠ dictGetD prev_result "query" →
       smart_inject results step = step) ∧
    (∀ (exec : PlanStep → ToolResult)
       (reorder : List (Nat × ToolResult) → List (Nat × ToolResult)),
       (∀ l, List.Perm (reorder l) l) →
       ∀ (n0 n1 : Int) (p0 p1 : Dict) (r0 r1 task : String) (est : List String),
       (execute_plan exec reorder
          ⟨task, [⟨n0, "search", "wikipedia", p0, r0⟩,
                  ⟨n1, "get_summary", "wikipedia", p1, r1⟩], est⟩).results =
         [exec ⟨n0, "search", "wikipedia", p0, r0⟩,
          exec (smart_inject [exec ⟨n0, "search", "wikipedia", p0, r0⟩]
            ⟨n1, "get_summary", "wikipedia", p1, r1⟩)]) := by
  refine ⟨?_, ?_, ?_, ?_⟩
  · intro results prev prev_result step first_item rest t hlast hdata hres htitle htool haction
    have hlen : decide (0 < results.length) = true := by
      cases results with
      | nil => simp at hlast
      | cons a l => simp
    unfold smart_inject
    simp only [hlast, hdata, hres, htitle, htool, haction, hlen, Value.truthy,
      List.isEmpty_cons, Bool.not_false, Bool.and_true, Bool.true_and, beq_self_eq_true]
    by_cases hw : prev.tool == "wikipedia" <;>
      by_cases hs : prev.success <;>
        by_cases hd : prev_result.isEmpty <;>
          by_cases ht : (!(dictHasKey step.params "title") ||
              dictGetD step.params "title" == dictGetD prev_result "query") = true <;>
      simp_all [Value.truthy]
  · intro results prev step hlast hfail
    unfold smart_inject
    simp only [hlast, hfail, Bool.and_false, Bool.false_and]
    simp
  · intro results prev prev_result step hlast hdata hhas hne
    have hbeq : (dictGetD step.params "title" == dictGetD prev_result "query") = false :=
      beq_eq_false_iff_ne.mpr hne
    unfold smart_inject
    simp only [hlast, hdata, hhas, hbeq, Bool.not_true, Bool.false_or]
    simp
  · intro exec reorder hperm n0 n1 p0 p1 r0 r1 task est
    exact twoStep_plan_shape exec reorder hperm n0 n1 p0 p1 r0 r1 task est

/-- Witness for C2: against the sample search outcome, the injection
overwrites a `title` equal to the query with the first result's title. -/
theorem dependent_injection_spec_witness :
    smart_inject [⟨"wikipedia", true, some sampleSearchPayload, none⟩]
      ⟨2, "get_summary", "wikipedia", [("title", .str "Nepal")], "summary"⟩ =
      ⟨2, "get_summary", "wikipedia", [("title", .str "Nepal (country)")], "summary"⟩ := by
  rw [dependent_injection_spec.1
      [⟨"wikipedia", true, some sampleSearchPayload, none⟩]
      ⟨"wikipedia", true, some sampleSearchPayload, none⟩
      sampleSearchPayload
      ⟨2, "get_summary", "wikipedia", [("title", .str "Nepal")], "summary"⟩
      [("title", .str "Nepal (country)"),
       ("description", .str "Country in South Asia"),
       ("url", .str "https://en.wikipedia.org/wiki/Nepal")]
      [] (.str "Nepal (country)")
      (by rfl) rfl (by rfl) (by rfl) rfl rfl]
  rfl

/-- C10: when the predecessor search succeeded but its payload's
"results" list is empty or absent, no parameter injection occurs: the
dependent step keeps exactly its original parameters (even when `title`
is absent or equal to the query), and in a two-step plan it is
dispatched unchanged. -/
theorem empty_search_results_no_injection :
    (∀ (results : List ToolResult) (prev : ToolResult) (prev_result : Dict)
       (step : PlanStep),
       results.getLast? = some prev → prev.data = some prev_result →
       (dictGet prev_result "results" = none ∨
        dictGet prev_result "results" = some (.list [])) →
       smart_inject results step = step) ∧
    (∀ (exec : PlanStep → ToolResult)
       (reorder : List (Nat × ToolResult) → List (Nat × ToolResult)),
       (∀ l, List.Perm (reorder l) l) →
       ∀ (n0 n1 : Int) (p0 p1 : Dict) (r0 r1 task : String) (est : List String)
         (prev_result : Dict),
       (exec ⟨n0, "search", "wikipedia", p0, r0⟩).data = some prev_result →
       (dictGet prev_result "results" = none ∨
        dictGet prev_result "results" = some (.list [])) →
       (execute_plan exec reorder
          ⟨task, [⟨n0, "search", "wikipedia", p0, r0⟩,
                  ⟨n1, "get_summary", "wikipedia", p1, r1⟩], est⟩).results =
         [exec ⟨n0, "search", "wikipedia", p0, r0⟩,
          exec ⟨n1, "get_summary", "wikipedia", p1, r1⟩]) := by
  have hmain : ∀ (results : List ToolResult) (prev : ToolResult) (prev_result : Dict)
      (step : PlanStep),
      results.getLast? = some prev → prev.data = some prev_result →
      (dictGet prev_result "results" = none ∨
       dictGet prev_result "results" = some (.list [])) →
      smart_inject results step = step := by
    intro results prev prev_result step hlast hdata hres
    unfold smart_inject
    rcases hres with hres | hres <;>
      simp only [hlast, hdata, hres, Value.truthy, List.isEmpty_nil, Bool.not_true] <;>
      simp
  refine ⟨hmain, ?_⟩
  intro exec reorder hperm n0 n1 p0 p1 r0 r1 task est prev_result hdata hres
  rw [twoStep_plan_shape exec reorder hperm n0 n1 p0 p1 r0 r1 task est]
  rw [hmain [exec ⟨n0, "search", "wikipedia", p0, r0⟩]
      (exec ⟨n0, "search", "wikipedia", p0, r0⟩) prev_result _ rfl hdata hres]

/-- Witness for C10: a successful search with an empty result list
injects nothing even though `title` equals the query. -/
theorem empty_search_results_no_injection_witness :
    smart_inject
      [⟨"wikipedia", true,
        some [("success", .bool true), ("query", .str "Nepal"), ("results", .list [])], none⟩]
      ⟨2, "get_summary", "wikipedia", [("title", .str "Nepal")], "summary"⟩ =
      ⟨2, "get_summary", "wikipedia", [("title", .str "Nepal")], "summary"⟩ :=
  empty_search_results_no_injection.1
    [⟨"wikipedia", true,
      some [("success", .bool true), ("query", .str "Nepal"), ("results", .list [])], none⟩]
    ⟨"wikipedia", true,
      some [("success", .bool true), ("query", .str "Nepal"), ("results", .list [])], none⟩
    [("success", .bool true), ("query", .str "Nepal"), ("results", .list [])]
    ⟨2, "get_summary", "wikipedia", [("title", .str "Nepal")], "summary"⟩
    (by rfl) rfl (Or.inr (by rfl))

/-! ## Substring test (Python `pat in s`) -/

/-- `pat` is a prefix of `s` (over characters). -/
def charsStart : List Char → List Char → Bool
  | [], _ => true
  | _ :: _, [] => false
  | p :: ps, c :: cs => p == c && charsStart ps cs

/-- `pat` occurs contiguously somewhere in `s`. -/
def charsHasSub (pat : List Char) : List Char → Bool
  | [] => charsStart pat []
  | c :: cs => charsStart pat (c :: cs) || charsHasSub pat cs

/-- Python `pat in s` on strings. -/
def stringContains (s pat : String) : Bool := charsHasSub pat.toList s.toList

/-- C9 counterexample: the unknown-tool error string is
"Tool 'doesnotexist' not found", which does not contain the exact
claimed phrase "tool not found". -/
theorem unknown_tool_message_counterexample :
    execute_step demoRegistry ⟨1, "lookup", "doesnotexist", [], "x"⟩ =
      ⟨"doesnotexist", false, none, some "Tool 'doesnotexist' not found"⟩ ∧
    stringContains "Tool 'doesnotexist' not found" "tool not found" = false :=
  ⟨rfl, by decide⟩

/-- C9 (amended): a step naming an unknown tool yields a failed outcome
whose error is "Tool '<id>' not found" — containing "not found" and the
tool id, though not the lowercase phrase "tool not found" — and the
failure does not prevent subsequent steps from executing and producing
their own outcomes. -/
theorem unknown_tool_fails_and_plan_continues :
    (execute_plan (execute_step demoRegistry) id
      ⟨"demo", [⟨1, "lookup", "doesnotexist", [], "x"⟩,
                ⟨2, "get_current_weather", "weather", [("city", .str "Paris")], "w"⟩],
       []⟩).results =
      [⟨"doesnotexist", false, none, some "Tool 'doesnotexist' not found"⟩,
       ⟨"weather", true, some demoWeatherPayload, none⟩] ∧
    stringContains "Tool 'doesnotexist' not found" "not found" = true ∧
    stringContains "Tool 'doesnotexist' not found" "doesnotexist" = true :=
  ⟨rfl, by decide, by decide⟩

/-- An action returning `{"success": False, "error": None}`: pydantic's
`Optional[str]` accepts the explicit `None`, so the failed outcome has
its error unset. -/
def demoNullErrorAction : ToolAction :=
  { acceptedParams := [],
    run := fun _ => .ok (.obj [("success", .bool false), ("error", .null)]) }

/-- An action returning `None`: `ToolResult(success=True, data=None)`
validates, so the successful outcome has its data unset. -/
def demoNoneReturnAction : ToolAction :=
  { acceptedParams := [],
    run := fun _ => .ok .null }

/-- A registry exercising the two payloads with pydantic-valid `None`
fields. -/
def nullDemoRegistry : Registry :=
  [("nulltool", [("none_error", demoNullErrorAction),
                 ("none_return", demoNoneReturnAction)])]

/-- C5 (amended): the step runner is a total function — every raised
exception during resolution, filtering or invocation becomes a failed
outcome with error exactly `"Execution error: " ++ cause` (capital E —
not the lowercase "execution error" the spec writes), never a
propagated fault. A successful outcome never has an error and a failed
outcome never has data. A failed outcome carries the payload's error
string ("Unknown error" when the key is absent) — unset only when the
payload holds an explicit None error — and a successful outcome
carries the returned dict as data, unset only when the action returned
None. -/
theorem execute_step_outcome_invariants :
    ∀ (tools : Registry) (step : PlanStep),
      ((execute_step tools step).success = true → (execute_step tools step).error = none) ∧
      ((execute_step tools step).success = false → (execute_step tools step).data = none) ∧
      (∀ (tool : List (String × ToolAction)) (method : ToolAction) (cause : String),
        assocGet tools step.tool = some tool →
        assocGet tool step.action = some method →
        method.run (step.params.filter (fun p => method.acceptedParams.contains p.1)) =
          .error cause →
        execute_step tools step =
          ⟨step.tool, false, none, some ("Execution error: " ++ cause)⟩) ∧
      (∀ (tool : List (String × ToolAction)) (method : ToolAction) (d : Dict),
        assocGet tools step.tool = some tool →
        assocGet tool step.action = some method →
        method.run (step.params.filter (fun p => method.acceptedParams.contains p.1)) =
          .ok (.obj d) →
        (execute_step tools step).success = true →
        (execute_step tools step).data = some d) ∧
      (∀ (tool : List (String × ToolAction)) (method : ToolAction) (d : Dict)
         (sv : Value) (s : String),
        assocGet tools step.tool = some tool →
        assocGet tool step.action = some method →
        method.run (step.params.filter (fun p => method.acceptedParams.contains p.1)) =
          .ok (.obj d) →
        dictGet d "success" = some sv → sv.truthy = false →
        (dictGet d "error").getD (.str "Unknown error") = .str s →
        execute_step tools step = ⟨step.tool, false, none, some s⟩) ∧
      (∀ (tool : List (String × ToolAction)) (method : ToolAction) (d : Dict)
         (sv : Value),
        assocGet tools step.tool = some tool →
        assocGet tool step.action = some method →
        method.run (step.params.filter (fun p => method.acceptedParams.contains p.1)) =
          .ok (.obj d) →
        dictGet d "success" = some sv → sv.truthy = false →
        (dictGet d "error").getD (.str "Unknown error") = .null →
        execute_step tools step = ⟨step.tool, false, none, none⟩) ∧
      (∀ (tool : List (String × ToolAction)) (method : ToolAction),
        assocGet tools step.tool = some tool →
        assocGet tool step.action = some method →
        method.run (step.params.filter (fun p => method.acceptedParams.contains p.1)) =
          .ok .null →
        execute_step tools step = ⟨step.tool, true, none, none⟩) := by
  intro tools step
  refine ⟨?_, ?_, ?_, ?_, ?_, ?_, ?_⟩
  · unfold execute_step
    repeat' (first | split | dsimp only)
    all_goals simp
  · unfold execute_step
    repeat' (first | split | dsimp only)
    all_goals simp
  · intro tool method cause h1 h2 h3
    unfold execute_step
    simp only [h1, h2, h3]
  · intro tool method d h1 h2 h3
    unfold execute_step
    simp only [h1, h2, h3]
    split
    · split
      · intro _; rfl
      · intro h
        split at h <;> simp at h
    · intro _; rfl
  · intro tool method d sv s h1 h2 h3 hsv htr herr
    unfold execute_step
    simp only [h1, h2, h3, hsv, htr, Bool.false_eq_true, if_false, herr]
  · intro tool method d sv h1 h2 h3 hsv htr herr
    unfold execute_step
    simp only [h1, h2, h3, hsv, htr, Bool.false_eq_true, if_false, herr]
  · intro tool method h1 h2 h3
    unfold execute_step
    simp only [h1, h2, h3]

/-- C5 counterexample: (1) an action raising with cause "boom" produces
the error string "Execution error: boom", which does not contain the
lowercase phrase "execution error" the claim states; (2) an action
returning `{"success": False, "error": None}` yields a failed outcome
with NO error set (pydantic accepts the explicit None), refuting
"error set when success=false"; (3) an action returning `None` yields a
successful outcome with NO data set, refuting "data set when
success=true". -/
theorem execution_error_capitalization_counterexample :
    ((execute_step demoRegistry
        ⟨2, "get_price", "crypto", [("coin_id", .str "bitcoin")], "c"⟩).error =
      some "Execution error: boom" ∧
     stringContains "Execution error: boom" "execution error" = false ∧
     stringContains "Execution error: boom" "boom" = true) ∧
    execute_step nullDemoRegistry ⟨1, "none_error", "nulltool", [], "n"⟩ =
      ⟨"nulltool", false, none, none⟩ ∧
    execute_step nullDemoRegistry ⟨1, "none_return", "nulltool", [], "n"⟩ =
      ⟨"nulltool", true, none, none⟩ :=
  ⟨⟨rfl, by decide, by decide⟩, rfl, rfl⟩

/-- Witness for C5: the invariants applied to the demo registry's
raising action. -/
theorem execute_step_outcome_invariants_witness :
    execute_step demoRegistry ⟨2, "get_price", "crypto", [("coin_id", .str "bitcoin")], "c"⟩ =
      ⟨"crypto", false, none, some ("Execution error: " ++ "boom")⟩ :=
  (execute_step_outcome_invariants demoRegistry
      ⟨2, "get_price", "crypto", [("coin_id", .str "bitcoin")], "c"⟩).2.2.1
    [("get_price", demoCryptoAction)] demoCryptoAction "boom" rfl rfl rfl

/-! ## Network-call structure of the tool actions (C6) -/

/-- httpx.HTTPError is the base class of ConnectError, TimeoutException
and HTTPStatusError; `otherError` models exceptions outside httpx. -/
def ApiException.isHttpError : ApiException → Bool
  | .otherError _ => false
  | _ => true

/-- Stands for `str(e)` of the TypeError Python would raise when the
opensearch response is not list-shaped (unreachable for real
responses). -/
def typeErrorText : String := "TypeError"

/-- `WikipediaTool.search` (wikipedia_tool.py lines 19-73). The method
performs exactly ONE outbound request — the class never imports or
applies `retry_api_call` — modelled by consuming only `env 1`; the
returned pair is (result dict, number of remote attempts made). An
httpx error is formatted as "Wikipedia API error: ...", any other
exception as "Unexpected error: ...". Python indexes descriptions and
urls by the title index (IndexError on ragged data; real opensearch
responses are rectangular), modelled by `Value.null` for a missing
entry. -/
def wikipedia_search (env : Nat → Except ApiException Value) (query : String) :
    Value × Nat :=
  match env 1 with
  | .error e =>
    if e.isHttpError then
      (.obj [("success", .bool false),
             ("error", .str ("Wikipedia API error: " ++ e.message))], 1)
    else
      (.obj [("success", .bool false),
             ("error", .str ("Unexpected error: " ++ e.message))], 1)
  | .ok data =>
    match data with
    | .list l =>
      if l.length ≥ 4 then
        match l[1]?, l[2]?, l[3]? with
        | some (Value.list titles), some (Value.list descriptions), some (Value.list urls) =>
          (.obj [("success", .bool true), ("query", .str query),
                 ("results", .list ((List.range titles.length).map (fun i =>
                    .obj [("title", (titles[i]?).getD .null),
                          ("description", (descriptions[i]?).getD .null),
                          ("url", (urls[i]?).getD .null)])))], 1)
        | _, _, _ =>
          (.obj [("success", .bool false),
                 ("error", .str ("Unexpected error: " ++ typeErrorText))], 1)
      else
        (.obj [("success", .bool true), ("query", .str query),
               ("results", .list [])], 1)
    | _ =>
      (.obj [("success", .bool false),
             ("error", .str ("Unexpected error: " ++ typeErrorText))], 1)

/-- `WeatherTool._fetch_weather_data` (weather_tool.py lines 23-38): the
single outbound request, wrapped in `@retry_api_call(max_attempts=3)`
with the decorator's defaults (initial_wait 1, max_wait 10,
multiplier 2). -/
def fetch_weather_data (env : Nat → Except ApiException Value) : RetryTrace Value :=
  retry_api_call 3 1 10 2 env

/-- An environment whose first remote call fails with a retryable
connectivity fault and whose later calls succeed. -/
def flakyEnv : Nat → Except ApiException Value :=
  fun n => if n = 1 then .error (.connectError "connection reset")
           else .ok (.list [.str "Nepal", .list [], .list [], .list []])

/-- C6 counterexample: `wikipedia.search` does NOT apply the retry
policy — a retryable transient fault on the very first remote call is
surfaced at once as a failed result after exactly 1 attempt, even
though the retry policy applied to the same environment would have
succeeded on attempt 2. -/
theorem wikipedia_search_no_retry_counterexample :
    wikipedia_search flakyEnv "Nepal" =
      (.obj [("success", .bool false),
             ("error", .str "Wikipedia API error: connection reset")], 1) ∧
    retryCondition (.connectError "connection reset") = true ∧
    (retry_api_call 3 1 10 2 flakyEnv).result =
      .ok (.list [.str "Nepal", .list [], .list [], .list []]) ∧
    (retry_api_call 3 1 10 2 flakyEnv).attempts = 2 :=
  ⟨rfl, rfl, rfl, rfl⟩

/-- C6 (amended): the weather tool's fetch applies the retry policy —
a transient fault is absorbed and surfaced only after the attempts are
exhausted — but the wikipedia tool issues its remote call exactly once,
so a transient fault on `wikipedia.search` becomes a failed result on
its first occurrence. -/
theorem weather_retries_but_wikipedia_does_not :
    (fetch_weather_data flakyEnv).result =
      .ok (.list [.str "Nepal", .list [], .list [], .list []]) ∧
    (fetch_weather_data flakyEnv).attempts = 2 ∧
    (fetch_weather_data (fun _ => .error (.connectError "down"))).result =
      .error (.connectError "down") ∧
    (fetch_weather_data (fun _ => .error (.connectError "down"))).attempts = 3 ∧
    (wikipedia_search flakyEnv "Nepal").2 = 1 ∧
    dictGet [("success", .bool false),
             ("error", .str "Wikipedia API error: connection reset")] "success" =
      some (.bool false) ∧
    (wikipedia_search flakyEnv "Nepal").1 =
      .obj [("success", .bool false),
            ("error", .str "Wikipedia API error: connection reset")] :=
  ⟨rfl, rfl, rfl, rfl, rfl, rfl, rfl⟩

/-! ## Result aggregator (`VerifierAgent.verify_and_format`) -/

mutual

/-- Python `repr` of a modelled value, as a character list: `None`,
`True`/`False`, numbers, single-quoted strings, `[...]` lists and
`{'k': v, ...}` dicts (the rendering `str(dict)` produces). Quote
escaping inside strings is not modelled (no payload below needs it). -/
def reprChars : Value → List Char
  | .null => "None".toList
  | .bool b => (if b then "True" else "False").toList
  | .int n => (toString n).toList
  | .str s => '\'' :: s.toList ++ ['\'']
  | .list items => '[' :: joinValues items ++ [']']
  | .obj fields => '{' :: joinFields fields ++ ['}']

def joinValues : List Value → List Char
  | [] => []
  | [v] => reprChars v
  | v :: rest => reprChars v ++ ',' :: ' ' :: joinValues rest

def joinFields : List (String × Value) → List Char
  | [] => []
  | [(k, v)] => reprChars (.str k) ++ ':' :: ' ' :: reprChars v
  | (k, v) :: rest =>
      reprChars (.str k) ++ ':' :: ' ' :: reprChars v ++ ',' :: ' ' :: joinFields rest

end

/-- Python `str()`: a string renders as itself, every other value as its
repr (the rendering f-strings apply to interpolated values). -/
def pyStr : Value → String
  | .str s => s
  | v => String.mk (reprChars v)

/-- `VerifierAgent._generate_context_label` (verifier.py lines 268-303). -/
def generate_context_label (tool_name : String) (data : Dict) : Option String :=
  if tool_name == "weather" && dictHasKey data "city" then
    some ("Weather for " ++ pyStr (dictGetD data "city"))
  else if tool_name == "github" && dictHasKey data "query" then
    let query := pyStr (dictGetD data "query")
    let query := if query.length > 50 then query.take 47 ++ "..." else query
    some ("GitHub search: " ++ query)
  else if tool_name == "news" && dictHasKey data "query" then
    some ("News about " ++ pyStr (dictGetD data "query"))
  else if tool_name == "wikipedia" then
    if dictHasKey data "title" then
      some ("Wikipedia: " ++ pyStr (dictGetD data "title"))
    else if dictHasKey data "query" then
      some ("Wikipedia search: " ++ pyStr (dictGetD data "query"))
    else none
  else if tool_name == "crypto" && dictHasKey data "coin" then
    some ("Crypto: " ++ pyStr (dictGetD data "coin"))
  else if tool_name == "countries" then
    if dictHasKey data "name" then
      some ("Country: " ++ pyStr (dictGetD data "name"))
    else if dictHasKey data "region" then
      some ("Region: " ++ pyStr (dictGetD data "region"))
    else none
  else none

/-- Attach the context label (verifier.py lines 62-65 and 73-77): tag the
dict under the reserved `_context` key when a label is derivable. -/
def tagResult (tool_name : String) (d : Dict) : Dict :=
  match generate_context_label tool_name d with
  | some lbl => dictSet d "_context" (.str lbl)
  | none => d

/-- `isinstance(value, str)`. -/
def isStr : Value → Bool
  | .str _ => true
  | _ => false

mutual

/-- `VerifierAgent._extract_sources` (verifier.py lines 305-316): walk
the payload; a string under a key named `url` or `html_url` is appended
to `sources` unless already present; dict and list values are entered
recursively. -/
def extract_sources : Value → List String → List String
  | .obj fields, sources => extractFromFields fields sources
  | .list items, sources => extractFromItems items sources
  | _, sources => sources

/-- One `key, value` iteration of `_extract_sources`'s dict loop:
`if key in ["url", "html_url"] and isinstance(value, str)` append-dedup,
`elif isinstance(value, (dict, list))` recurse. -/
def extractEntry : String → Value → List String → List String
  | key, value, sources =>
    if (key == "url" || key == "html_url") && isStr value then
      match value with
      | .str u => if u ∈ sources then sources else sources ++ [u]
      | _ => sources
    else
      match value with
      | .obj fields2 => extractFromFields fields2 sources
      | .list items2 => extractFromItems items2 sources
      | _ => sources

def extractFromFields : List (String × Value) → List String → List String
  | [], sources => sources
  | (key, value) :: rest, sources =>
    extractFromFields rest (extractEntry key value sources)

def extractFromItems : List Value → List String → List String
  | [], sources => sources
  | item :: rest, sources => extractFromItems rest (extract_sources item sources)

end

mutual

/-- The url values `_extract_sources` visits, in visit order, without
the de-duplication (the claim's "recursive scan"). -/
def urlScan : Value → List String
  | .obj fields => urlScanFields fields
  | .list items => urlScanItems items
  | _ => []

def urlScanEntry : String → Value → List String
  | key, value =>
    if (key == "url" || key == "html_url") && isStr value then
      match value with
      | .str u => [u]
      | _ => []
    else
      match value with
      | .obj fields2 => urlScanFields fields2
      | .list items2 => urlScanItems items2
      | _ => []

def urlScanFields : List (String × Value) → List String
  | [] => []
  | (key, value) :: rest => urlScanEntry key value ++ urlScanFields rest

def urlScanItems : List Value → List String
  | [] => []
  | item :: rest => urlScan item ++ urlScanItems rest

end

/-- The state the verifier's collection loop threads (verifier.py lines
50-53): the by-tool map, the citation list, and the advisory lists. -/
structure CollectState where
  collected_data : List (String × Value)
  sources : List String
  suggestions : List Value
  correction_notes : List Value
deriving Repr

/-- One iteration of the loop `for result in successful_steps:`
(verifier.py lines 55-93) for a result with truthy data: tag a copy of
the payload with a context label; insert it into the by-tool map —
first occurrence as the single tagged dict, a repeat occurrence
promotes the entry to a list (re-tagging the stored single dict) and
appends; collect `suggestion` / `correction_note` values; and extract
sources when `"url"` occurs in `str(result.data)`. -/
def collect_step (st : CollectState) (result : ToolResult) : CollectState :=
  match result.data with
  | some d =>
    if (Value.obj d).truthy then
      let result_with_context := tagResult result.tool d
      let collected :=
        match assocGet st.collected_data result.tool with
        | some existing =>
          match existing with
          | .list items =>
              dictSet st.collected_data result.tool
                (.list (items ++ [.obj result_with_context]))
          | .obj existing_d =>
              dictSet st.collected_data result.tool
                (.list [.obj (tagResult result.tool existing_d),
                        .obj result_with_context])
          | other =>
              dictSet st.collected_data result.tool
                (.list [other, .obj result_with_context])
        | none => st.collected_data ++ [(result.tool, .obj result_with_context)]
      { collected_data := collected,
        sources :=
          if charsHasSub "url".toList (reprChars (.obj d)) then
            extract_sources (.obj d) st.sources
          else st.sources,
        suggestions :=
          if dictHasKey d "suggestion" then st.suggestions ++ [dictGetD d "suggestion"]
          else st.suggestions,
        correction_notes :=
          if dictHasKey d "correction_note" then
            st.correction_notes ++ [dictGetD d "correction_note"]
          else st.correction_notes }
    else st
  | none => st

/-- The verifier's data-collection pass (verifier.py lines 39-93):
iterate `collect_step` over the successful results, in order. -/
def collect_results (results : List ToolResult) : CollectState :=
  (results.filter (fun r => r.success)).foldl collect_step ⟨[], [], [], []⟩

/-! ## Dict-update lemmas -/

theorem find?_map_replace (d : Dict) (k k' : String) (v : Value) (h : k' ≠ k) :
    (d.map (fun p => if p.1 == k then (k, v) else p)).find? (fun p => p.1 == k') =
      d.find? (fun p => p.1 == k') := by
  induction d with
  | nil => rfl
  | cons p rest ih =>
    rw [List.map_cons]
    by_cases hk : p.1 = k
    · have hrepl : (if (p.1 == k) = true then (k, v) else p) = (k, v) := by simp [hk]
      rw [hrepl,
        @List.find?_cons_of_neg _ (fun q => q.1 == k') (k, v) _
          (by simpa using Ne.symm h),
        @List.find?_cons_of_neg _ (fun q => q.1 == k') p _
          (by simp [hk]; exact Ne.symm h)]
      exact ih
    · have hrepl : (if (p.1 == k) = true then (k, v) else p) = p := by simp [hk]
      rw [hrepl]
      by_cases hk' : p.1 = k'
      · rw [@List.find?_cons_of_pos _ (fun q => q.1 == k') p _ (by simpa using hk'),
            @List.find?_cons_of_pos _ (fun q => q.1 == k') p _ (by simpa using hk')]
      · rw [@List.find?_cons_of_neg _ (fun q => q.1 == k') p _ (by simpa using hk'),
            @List.find?_cons_of_neg _ (fun q => q.1 == k') p _ (by simpa using hk')]
        exact ih

theorem find?_append_single_ne (d : Dict) (k k' : String) (v : Value) (h : k' ≠ k) :
    (d ++ [(k, v)]).find? (fun p => p.1 == k') = d.find? (fun p => p.1 == k') := by
  induction d with
  | nil =>
    rw [List.nil_append,
      @List.find?_cons_of_neg _ (fun q => q.1 == k') (k, v) _ (by simpa using Ne.symm h)]
  | cons p rest ih =>
    rw [List.cons_append]
    by_cases hk' : p.1 = k'
    · rw [@List.find?_cons_of_pos _ (fun q => q.1 == k') p _ (by simpa using hk'),
          @List.find?_cons_of_pos _ (fun q => q.1 == k') p _ (by simpa using hk')]
    · rw [@List.find?_cons_of_neg _ (fun q => q.1 == k') p _ (by simpa using hk'),
          @List.find?_cons_of_neg _ (fun q => q.1 == k') p _ (by simpa using hk')]
      exact ih

theorem dictGet_dictSet_ne (d : Dict) (k k' : String) (v : Value) (h : k' ≠ k) :
    dictGet (dictSet d k v) k' = dictGet d k' := by
  unfold dictSet dictGet
  split
  · rw [find?_map_replace d k k' v h]
  · rw [find?_append_single_ne d k k' v h]

theorem dictHasKey_dictSet_ne (d : Dict) (k k' : String) (v : Value) (h : k' ≠ k) :
    dictHasKey (dictSet d k v) k' = dictHasKey d k' := by
  unfold dictHasKey
  rw [dictGet_dictSet_ne d k k' v h]

theorem dictGetD_dictSet_ne (d : Dict) (k k' : String) (v : Value) (h : k' ≠ k) :
    dictGetD (dictSet d k v) k' = dictGetD d k' := by
  unfold dictGetD
  rw [dictGet_dictSet_ne d k k' v h]

theorem map_replace_idem (l : Dict) (k : String) (v : Value) :
    (l.map (fun p => if p.1 == k then (k, v) else p)).map
        (fun p => if p.1 == k then (k, v) else p) =
      l.map (fun p => if p.1 == k then (k, v) else p) := by
  rw [List.map_map]
  congr 1
  funext q
  by_cases hq : q.1 == k <;> simp [Function.comp, hq]

theorem hasKey_map_replace (d : Dict) (k : String) (v : Value) :
    dictHasKey (d.map (fun p => if p.1 == k then (k, v) else p)) k = dictHasKey d k := by
  unfold dictHasKey dictGet
  induction d with
  | nil => rfl
  | cons p rest ih =>
    by_cases hp : (p.1 == k) = true
    · simp [List.find?, hp]
    · have hp2 : (p.1 == k) = false := by simpa using hp
      simp only [List.map_cons, List.find?, hp2, if_false]
      simpa [List.find?, hp2] using ih

theorem hasKey_append_self (d : Dict) (k : String) (v : Value) :
    dictHasKey (d ++ [(k, v)]) k = true := by
  unfold dictHasKey dictGet
  induction d with
  | nil => simp [List.find?]
  | cons p rest ih =>
    by_cases hp : (p.1 == k) = true
    · simp [List.find?, hp]
    · have hp2 : (p.1 == k) = false := by simpa using hp
      simp only [List.cons_append, List.find?, hp2]
      simp only [List.find?, hp2] at ih
      exact ih

theorem map_replace_no_key (d : Dict) (k : String) (v : Value)
    (h : dictHasKey d k = false) :
    d.map (fun p => if p.1 == k then (k, v) else p) = d := by
  induction d with
  | nil => rfl
  | cons p rest ih =>
    by_cases hp : (p.1 == k) = true
    · exfalso
      unfold dictHasKey dictGet at h
      simp [List.find?, hp] at h
    · have hp2 : (p.1 == k) = false := by simpa using hp
      have hrest : dictHasKey rest k = false := by
        unfold dictHasKey dictGet at h ⊢
        simpa [List.find?, hp2] using h
      have hrepl : (if (p.1 == k) = true then (k, v) else p) = p := by simp [hp2]
      rw [List.map_cons, hrepl, ih hrest]

theorem dictSet_dictSet_same (d : Dict) (k : String) (v : Value) :
    dictSet (dictSet d k v) k v = dictSet d k v := by
  unfold dictSet
  by_cases h : dictHasKey d k = true
  · simp only [h, if_true]
    rw [hasKey_map_replace d k v, h]
    simp only [if_true]
    exact map_replace_idem d k v
  · have h2 : dictHasKey d k = false := by simpa using h
    simp only [h2, Bool.false_eq_true, if_false]
    rw [hasKey_append_self d k v]
    simp only [if_true, List.map_append, map_replace_no_key d k v h2]
    simp

/-- `generate_context_label` never reads the reserved `_context` key, so
tagging leaves the label unchanged. -/
theorem label_dictSet_context (tool : String) (d : Dict) (v : Value) :
    generate_context_label tool (dictSet d "_context" v) =
      generate_context_label tool d := by
  unfold generate_context_label
  rw [dictHasKey_dictSet_ne d "_context" "city" v (by decide),
      dictGetD_dictSet_ne d "_context" "city" v (by decide),
      dictHasKey_dictSet_ne d "_context" "query" v (by decide),
      dictGetD_dictSet_ne d "_context" "query" v (by decide),
      dictHasKey_dictSet_ne d "_context" "title" v (by decide),
      dictGetD_dictSet_ne d "_context" "title" v (by decide),
      dictHasKey_dictSet_ne d "_context" "coin" v (by decide),
      dictGetD_dictSet_ne d "_context" "coin" v (by decide),
      dictHasKey_dictSet_ne d "_context" "name" v (by decide),
      dictGetD_dictSet_ne d "_context" "name" v (by decide),
      dictHasKey_dictSet_ne d "_context" "region" v (by decide),
      dictGetD_dictSet_ne d "_context" "region" v (by decide)]

theorem label_tagResult (tool : String) (d : Dict) :
    generate_context_label tool (tagResult tool d) =
      generate_context_label tool d := by
  unfold tagResult
  cases hl : generate_context_label tool d with
  | none => exact hl
  | some lbl => rw [label_dictSet_context, hl]

theorem tagResult_idem (tool : String) (d : Dict) :
    tagResult tool (tagResult tool d) = tagResult tool d := by
  conv_lhs => rw [tagResult]
  rw [label_tagResult]
  cases hl : generate_context_label tool d with
  | none =>
    show (match tagResult tool d, none with
      | d2, some lbl => dictSet d2 "_context" (.str lbl)
      | d2, none => d2) = tagResult tool d
    rfl
  | some lbl =>
    show dictSet (tagResult tool d) "_context" (.str lbl) = tagResult tool d
    rw [tagResult, hl]
    exact dictSet_dictSet_same d "_context" (.str lbl)

/-- C7: in the by-tool map, a first successful outcome for a tool is
stored as a single tagged payload; a second successful outcome for the
same tool promotes the entry in place to an ordered two-entry list —
first occurrence first, the new payload appended rather than
overwritten — re-tagging the stored first entry (a no-op when it is
already tagged, i.e. the label is only back-filled); tagging writes
only the reserved `_context` key and never replaces an original payload
field. -/
theorem bytool_grouping_spec :
    (∀ (st : CollectState) (r : ToolResult) (d : Dict),
       r.data = some d → (Value.obj d).truthy = true →
       assocGet st.collected_data r.tool = none →
       (collect_step st r).collected_data =
         st.collected_data ++ [(r.tool, .obj (tagResult r.tool d))]) ∧
    (∀ (st : CollectState) (r : ToolResult) (d existing_d : Dict),
       r.data = some d → (Value.obj d).truthy = true →
       assocGet st.collected_data r.tool = some (.obj existing_d) →
       (collect_step st r).collected_data =
         dictSet st.collected_data r.tool
           (.list [.obj (tagResult r.tool existing_d), .obj (tagResult r.tool d)])) ∧
    (∀ (tool : String) (d : Dict) (k : String), k ≠ "_context" →
       dictGet (tagResult tool d) k = dictGet d k) ∧
    (∀ (tool : String) (d : Dict),
       generate_context_label tool (tagResult tool d) = generate_context_label tool d ∧
       tagResult tool (tagResult tool d) = tagResult tool d) := by
  refine ⟨?_, ?_, ?_, ?_⟩
  · intro st r d hdata htruthy hget
    unfold collect_step
    rw [hdata]
    simp only [htruthy, if_true, hget]
  · intro st r d existing_d hdata htruthy hget
    unfold collect_step
    rw [hdata]
    simp only [htruthy, if_true, hget]
  · intro tool d k hk
    unfold tagResult
    cases hl : generate_context_label tool d with
    | none => rfl
    | some lbl => exact dictGet_dictSet_ne d "_context" k (.str lbl) hk
  · intro tool d
    exact ⟨label_tagResult tool d, tagResult_idem tool d⟩

/-- Witness for C7: a second weather outcome (Tokyo) promotes the stored
Paris entry to an ordered two-entry list, appending rather than
overwriting. -/
theorem bytool_grouping_spec_witness :
    (collect_step
        ⟨[("weather", .obj [("success", .bool true), ("city", .str "Paris")])], [], [], []⟩
        ⟨"weather", true, some [("success", .bool true), ("city", .str "Tokyo")], none⟩
      ).collected_data =
      dictSet [("weather", .obj [("success", .bool true), ("city", .str "Paris")])]
        "weather"
        (.list [.obj (tagResult "weather" [("success", .bool true), ("city", .str "Paris")]),
                .obj (tagResult "weather" [("success", .bool true), ("city", .str "Tokyo")])]) :=
  bytool_grouping_spec.2.1
    ⟨[("weather", .obj [("success", .bool true), ("city", .str "Paris")])], [], [], []⟩
    ⟨"weather", true, some [("success", .bool true), ("city", .str "Tokyo")], none⟩
    [("success", .bool true), ("city", .str "Tokyo")]
    [("success", .bool true), ("city", .str "Paris")]
    rfl rfl rfl

/-! ## C8: the citation list is the deduplicated first-seen url scan -/

/-- First-seen-order deduplicating insertion (the effect of
`if value not in sources: sources.append(value)`). -/
def insertNew (sources : List String) (u : String) : List String :=
  if u ∈ sources then sources else sources ++ [u]

/-- The claim-side specification of the citation list: the values of
`url`/`html_url` fields of every successful outcome's payload, by
recursive scan in plan order, each kept once at its first occurrence. -/
def specSources (results : List ToolResult) : List String :=
  ((results.filter (fun r => r.success)).flatMap
    (fun r => match r.data with | some d => urlScan (.obj d) | none => [])).foldl
    insertNew []

theorem charsStart_iff : ∀ (p s : List Char), charsStart p s = true ↔ p <+: s
  | [], s => by simp [charsStart, List.nil_prefix]
  | a :: ps, [] => by simp [charsStart, List.prefix_nil]
  | a :: ps, c :: cs => by
      rw [List.cons_prefix_cons]
      simp only [charsStart, Bool.and_eq_true, beq_iff_eq]
      exact and_congr Iff.rfl (charsStart_iff ps cs)

theorem charsHasSub_iff : ∀ (p s : List Char), charsHasSub p s = true ↔ p <:+: s
  | p, [] => by
      simp only [charsHasSub, charsStart_iff]
      constructor
      · exact List.IsPrefix.isInfix
      · intro h
        have hnil : p = [] := List.sublist_nil.mp h.sublist
        subst hnil
        exact List.nil_prefix
  | p, c :: cs => by
      simp only [charsHasSub, Bool.or_eq_true, charsStart_iff, charsHasSub_iff p cs]
      exact List.infix_cons_iff.symm

theorem infix_wrap {l m : List Char} (a b : Char) (h : l <:+: m) :
    l <:+: a :: (m ++ [b]) := by
  obtain ⟨s, t, rfl⟩ := h
  exact ⟨a :: s, t ++ [b], by simp⟩

theorem infix_append_right {l m : List Char} (r : List Char) (h : l <:+: m) :
    l <:+: m ++ r := by
  obtain ⟨s, t, rfl⟩ := h
  exact ⟨s, t ++ r, by simp⟩

theorem infix_append_left {l m : List Char} (r : List Char) (h : l <:+: m) :
    l <:+: r ++ m := by
  obtain ⟨s, t, rfl⟩ := h
  exact ⟨r ++ s, t, by simp⟩

/-- `joinFields` of a cons, normalized to pair-render ++ tail. -/
theorem joinFields_cons_eq (key : String) (value : Value) (rest : List (String × Value)) :
    joinFields ((key, value) :: rest) =
      (reprChars (.str key) ++ ':' :: ' ' :: reprChars value) ++
        (match rest with | [] => [] | _ :: _ => ',' :: ' ' :: joinFields rest) := by
  cases rest <;> simp [joinFields]

/-- `joinValues` of a cons, normalized to item-render ++ tail. -/
theorem joinValues_cons_eq (v : Value) (rest : List Value) :
    joinValues (v :: rest) =
      reprChars v ++ (match rest with | [] => [] | _ :: _ => ',' :: ' ' :: joinValues rest) := by
  cases rest <;> simp [joinValues]

mutual

/-- A value whose recursive scan finds a url has the characters "url"
somewhere in its repr (because a key named url/html_url renders into
it). -/
theorem url_infix_scan : ∀ (v : Value), urlScan v ≠ [] → "url".toList <:+: reprChars v
  | .obj fields, h => by
      simp only [urlScan] at h
      simp only [reprChars]
      exact infix_wrap '{' '}' (url_infix_scanFields fields h)
  | .list items, h => by
      simp only [urlScan] at h
      simp only [reprChars]
      exact infix_wrap '[' ']' (url_infix_scanItems items h)
  | .null, h => by simp [urlScan] at h
  | .bool b, h => by simp [urlScan] at h
  | .int n, h => by simp [urlScan] at h
  | .str s, h => by simp [urlScan] at h

theorem url_infix_entry : ∀ (key : String) (value : Value), urlScanEntry key value ≠ [] →
    "url".toList <:+: (reprChars (.str key) ++ ':' :: ' ' :: reprChars value)
  | key, .str s, h => by
      by_cases hk : (key == "url" || key == "html_url") = true
      · have hkey : key = "url" ∨ key = "html_url" := by
          rcases Bool.or_eq_true_iff.mp hk with h2 | h2
          · exact Or.inl (by simpa using h2)
          · exact Or.inr (by simpa using h2)
        have hkinf : "url".toList <:+: reprChars (.str key) := by
          simp only [reprChars]
          rcases hkey with rfl | rfl
          · exact ⟨['\''], ['\''], rfl⟩
          · exact ⟨'\'' :: "html_".toList, ['\''], rfl⟩
        exact infix_append_right (':' :: ' ' :: reprChars (.str s)) hkinf
      · exfalso
        apply h
        have hk2 : (key == "url" || key == "html_url") = false := by simpa using hk
        simp [urlScanEntry, hk2, isStr]
  | key, .obj fields2, h => by
      have hscan : urlScanFields fields2 ≠ [] := by
        simpa [urlScanEntry, isStr] using h
      have hin := url_infix_scanFields fields2 hscan
      have hv : "url".toList <:+: reprChars (.obj fields2) := by
        simp only [reprChars]
        exact infix_wrap '{' '}' hin
      have h2 := infix_append_left (reprChars (.str key) ++ [':', ' ']) hv
      simpa using h2
  | key, .list items2, h => by
      have hscan : urlScanItems items2 ≠ [] := by
        simpa [urlScanEntry, isStr] using h
      have hin := url_infix_scanItems items2 hscan
      have hv : "url".toList <:+: reprChars (.list items2) := by
        simp only [reprChars]
        exact infix_wrap '[' ']' hin
      have h2 := infix_append_left (reprChars (.str key) ++ [':', ' ']) hv
      simpa using h2
  | key, .null, h => by simp [urlScanEntry, isStr] at h
  | key, .bool b, h => by simp [urlScanEntry, isStr] at h
  | key, .int n, h => by simp [urlScanEntry, isStr] at h

theorem url_infix_scanFields : ∀ (fs : List (String × Value)), urlScanFields fs ≠ [] →
    "url".toList <:+: joinFields fs
  | [], h => by simp [urlScanFields] at h
  | (key, value) :: rest, h => by
      rw [joinFields_cons_eq]
      simp only [urlScanFields] at h
      by_cases hh : urlScanEntry key value = []
      · have hrest : urlScanFields rest ≠ [] := by
          intro hr
          exact h (by rw [hh, hr]; rfl)
        have hrne : rest ≠ [] := by
          intro hre
          subst hre
          exact hrest (by simp [urlScanFields])
        match rest, hrne with
        | r :: rs, _ =>
          have ih := url_infix_scanFields (r :: rs) hrest
          have h2 := infix_append_left
            ((reprChars (.str key) ++ ':' :: ' ' :: reprChars value) ++ [',', ' ']) ih
          simpa [List.append_assoc] using h2
      · have hpair := url_infix_entry key value hh
        exact infix_append_right _ hpair

theorem url_infix_scanItems : ∀ (its : List Value), urlScanItems its ≠ [] →
    "url".toList <:+: joinValues its
  | [], h => by simp [urlScanItems] at h
  | item :: rest, h => by
      rw [joinValues_cons_eq]
      simp only [urlScanItems] at h
      by_cases hh : urlScan item = []
      · have hrest : urlScanItems rest ≠ [] := by
          intro hr
          exact h (by rw [hh, hr]; rfl)
        have hrne : rest ≠ [] := by
          intro hre
          subst hre
          exact hrest (by simp [urlScanItems])
        match rest, hrne with
        | r :: rs, _ =>
          have ih := url_infix_scanItems (r :: rs) hrest
          have h2 := infix_append_left (reprChars item ++ [',', ' ']) ih
          simpa [List.append_assoc] using h2
      · have hitem := url_infix_scan item hh
        exact infix_append_right _ hitem

end

/-- When the "url" guard of verifier.py line 92 is false, the recursive
scan finds nothing. -/
theorem guard_false_scan_nil (d : Dict)
    (h : charsHasSub "url".toList (reprChars (.obj d)) = false) :
    urlScan (.obj d) = [] := by
  by_contra hne
  have h2 := url_infix_scan (.obj d) hne
  rw [← charsHasSub_iff] at h2
  rw [h] at h2
  exact Bool.false_ne_true h2

/-- A falsy payload (the empty dict) scans to nothing. -/
theorem not_truthy_scan_nil (d : Dict) (h : (Value.obj d).truthy = false) :
    urlScan (.obj d) = [] := by
  cases d with
  | nil => simp [urlScan, urlScanFields]
  | cons p rest => simp [Value.truthy] at h

mutual

/-- `_extract_sources` equals the deduplicating fold of the plain scan. -/
theorem extract_foldl : ∀ (v : Value) (s : List String),
    extract_sources v s = (urlScan v).foldl insertNew s
  | .obj fields, s => by
      simp only [extract_sources, urlScan]
      exact extractFields_foldl fields s
  | .list items, s => by
      simp only [extract_sources, urlScan]
      exact extractItems_foldl items s
  | .null, s => by simp [extract_sources, urlScan]
  | .bool b, s => by simp [extract_sources, urlScan]
  | .int n, s => by simp [extract_sources, urlScan]
  | .str st, s => by simp [extract_sources, urlScan]

theorem extractEntry_foldl : ∀ (k : String) (v : Value) (s : List String),
    extractEntry k v s = (urlScanEntry k v).foldl insertNew s
  | k, .str u, s => by
      by_cases hk : (k == "url" || k == "html_url") = true <;>
        simp [extractEntry, urlScanEntry, isStr, hk, insertNew]
  | k, .obj fields2, s => by
      simp only [extractEntry, urlScanEntry, isStr, Bool.and_false, Bool.false_eq_true,
        if_false]
      exact extractFields_foldl fields2 s
  | k, .list items2, s => by
      simp only [extractEntry, urlScanEntry, isStr, Bool.and_false, Bool.false_eq_true,
        if_false]
      exact extractItems_foldl items2 s
  | k, .null, s => by simp [extractEntry, urlScanEntry, isStr]
  | k, .bool b, s => by simp [extractEntry, urlScanEntry, isStr]
  | k, .int n, s => by simp [extractEntry, urlScanEntry, isStr]

theorem extractFields_foldl : ∀ (fs : List (String × Value)) (s : List String),
    extractFromFields fs s = (urlScanFields fs).foldl insertNew s
  | [], s => by simp [extractFromFields, urlScanFields]
  | (k, v) :: rest, s => by
      simp only [extractFromFields, urlScanFields]
      rw [List.foldl_append, ← extractEntry_foldl k v s, extractFields_foldl rest _]

theorem extractItems_foldl : ∀ (its : List Value) (s : List String),
    extractFromItems its s = (urlScanItems its).foldl insertNew s
  | [], s => by simp [extractFromItems, urlScanItems]
  | item :: rest, s => by
      simp only [extractFromItems, urlScanItems]
      rw [List.foldl_append, ← extract_foldl item s, extractItems_foldl rest _]

end

/-- The per-result effect of the collection loop on the citation list. -/
theorem collect_step_sources (st : CollectState) (r : ToolResult) :
    (collect_step st r).sources =
      (match r.data with
       | some d => urlScan (.obj d)
       | none => []).foldl insertNew st.sources := by
  cases hd : r.data with
  | none => simp [collect_step, hd]
  | some d =>
    by_cases ht : (Value.obj d).truthy = true
    · by_cases hg : charsHasSub "url".toList (reprChars (.obj d)) = true
      · simp only [collect_step, hd, ht, if_true, hg]
        exact extract_foldl (.obj d) st.sources
      · have hg2 : charsHasSub "url".toList (reprChars (.obj d)) = false := by
          simpa using hg
        simp only [collect_step, hd, ht, if_true, hg2, Bool.false_eq_true, if_false]
        rw [guard_false_scan_nil d hg2]
        rfl
    · have ht2 : (Value.obj d).truthy = false := by simpa using ht
      simp only [collect_step, hd, ht2, Bool.false_eq_true, if_false]
      rw [not_truthy_scan_nil d ht2]
      rfl

theorem mem_insertNew {acc : List String} {u v : String} :
    u ∈ insertNew acc v ↔ u ∈ acc ∨ u = v := by
  unfold insertNew
  by_cases hv : v ∈ acc
  · simp only [hv, if_true]
    constructor
    · exact Or.inl
    · rintro (h | rfl)
      · exact h
      · exact hv
  · simp [hv]

theorem mem_foldl_insertNew : ∀ (l : List String) (acc : List String) (u : String),
    u ∈ l.foldl insertNew acc ↔ u ∈ acc ∨ u ∈ l
  | [], acc, u => by simp
  | v :: rest, acc, u => by
      rw [List.foldl_cons, mem_foldl_insertNew rest (insertNew acc v) u]
      rw [mem_insertNew]
      constructor
      · rintro ((h | rfl) | h)
        · exact Or.inl h
        · exact Or.inr (List.mem_cons_self _ _)
        · exact Or.inr (List.mem_cons_of_mem v h)
      · rintro (h | h)
        · exact Or.inl (Or.inl h)
        · rcases List.mem_cons.mp h with rfl | h2
          · exact Or.inl (Or.inr rfl)
          · exact Or.inr h2

theorem nodup_insertNew {acc : List String} (h : acc.Nodup) (u : String) :
    (insertNew acc u).Nodup := by
  unfold insertNew
  by_cases hu : u ∈ acc
  · simpa [hu]
  · simp [hu, List.nodup_append, h]

theorem nodup_foldl_insertNew : ∀ (l : List String) (acc : List String),
    acc.Nodup → (l.foldl insertNew acc).Nodup
  | [], acc, h => h
  | v :: rest, acc, h => by
      rw [List.foldl_cons]
      exact nodup_foldl_insertNew rest (insertNew acc v) (nodup_insertNew h v)

/-- The collection loop's citation list, as a fold over the successful
results' scans. -/
theorem collect_foldl_sources : ∀ (rs : List ToolResult) (st : CollectState),
    (rs.foldl collect_step st).sources =
      (rs.flatMap (fun r => match r.data with
        | some d => urlScan (.obj d)
        | none => [])).foldl insertNew st.sources
  | [], st => by simp
  | r :: rest, st => by
      rw [List.foldl_cons, List.flatMap_cons, List.foldl_append,
        collect_foldl_sources rest (collect_step st r), collect_step_sources st r]

/-- C8: the sources list of the aggregated result is exactly the
first-seen-order deduplication of the url/html_url string values found
by recursive scan of every successful outcome's payload — every such
value appears (membership), appears only once (nodup), and the list
equals the claim-side specification. -/
theorem sources_exact_dedup_scan (results : List ToolResult) :
    (collect_results results).sources = specSources results ∧
    (∀ u : String, u ∈ (collect_results results).sources ↔
      u ∈ (results.filter (fun r => r.success)).flatMap
        (fun r => match r.data with | some d => urlScan (.obj d) | none => [])) ∧
    (collect_results results).sources.Nodup := by
  have heq : (collect_results results).sources = specSources results := by
    unfold collect_results specSources
    rw [collect_foldl_sources]
  refine ⟨heq, ?_, ?_⟩
  · intro u
    rw [heq]
    unfold specSources
    rw [mem_foldl_insertNew]
    simp
  · rw [heq]
    unfold specSources
    exact nodup_foldl_insertNew _ [] List.nodup_nil

end AIOps
